import Mathlib

/-!
# Verification of the deployment-log parsing and infrastructure-tracking subsystem

Shallow embedding of the TypeScript sources (`src/foundry-logs.ts`,
`src/deployment-info.ts`, `src/cleanup.ts`) of the vnet-github-action
repository.  Strings are modelled as `List Char` (`Line`), JavaScript string
operations (`split`, `trim`, `includes`, `indexOf`, `parseInt`, regular
expression matches) are embedded as structurally recursive Lean functions, and
the per-file line-oriented state machine of `parseDeploymentLogs` is embedded
as a fold over the list of lines.
-/

namespace VNet

/-- A JavaScript string, modelled as its list of characters. -/
abbrev Line := List Char

/-- JavaScript whitespace (`\s`), restricted to the ASCII whitespace
characters that can realistically occur in the modelled inputs. -/
def jsIsSpace (c : Char) : Bool :=
  c = ' ' || c = '\t' || c = '\n' || c = '\r' || c = '\x0b' || c = '\x0c'

/-- Embedding of `String.prototype.trim`: strip leading and trailing whitespace. -/
def jsTrim (l : Line) : Line :=
  ((l.dropWhile jsIsSpace).reverse.dropWhile jsIsSpace).reverse

/-- Does `l` start with `p`? (prefix test used by the substring search). -/
def startsWith : Line → Line → Bool
  | [], _ => true
  | _ :: _, [] => false
  | p :: ps, c :: cs => p = c && startsWith ps cs

/-- Embedding of `String.prototype.includes sub`: `sub` occurs as a contiguous substring. -/
def containsSub (sub : Line) : Line → Bool
  | [] => startsWith sub []
  | l@(_ :: rest) => startsWith sub l || containsSub sub rest

/-- Embedding of `String.prototype.split` with a one-character separator
(the source only splits on `':'` and `'\n'`). -/
def splitChar (sep : Char) : Line → List Line
  | [] => [[]]
  | c :: rest =>
    match splitChar sep rest with
    | [] => [[c]]
    | g :: gs => if c = sep then [] :: g :: gs else (c :: g) :: gs

/-- Decimal value of a digit list (most significant digit first). -/
def decVal (ds : List Char) : Nat :=
  ds.foldl (fun a c => 10 * a + (c.toNat - 48)) 0

/-- Hexadecimal digit as used by the character class `[a-fA-F0-9]`. -/
def isHexDigit (c : Char) : Bool :=
  c.isDigit || ('a' ≤ c && c ≤ 'f') || ('A' ≤ c && c ≤ 'F')

/-- Hexadecimal value of a hex-digit list. -/
def hexVal (ds : List Char) : Nat :=
  ds.foldl (fun a c =>
    16 * a + (if c.isDigit then c.toNat - 48
              else if 'a' ≤ c && c ≤ 'f' then c.toNat - 87
              else c.toNat - 55)) 0

/-- The body of `parseInt` after sign handling: a `0x`/`0X` prefix selects
base 16, otherwise the longest leading run of decimal digits is parsed;
`none` models `NaN`. -/
def jsParseIntBody (sign : Int) (body : Line) : Option Int :=
  match body with
  | '0' :: x :: r2 =>
    if x = 'x' || x = 'X' then
      let ds := r2.takeWhile isHexDigit
      if ds.isEmpty then none else some (sign * (hexVal ds : Int))
    else
      let ds := body.takeWhile Char.isDigit
      if ds.isEmpty then none else some (sign * (decVal ds : Int))
  | _ =>
    let ds := body.takeWhile Char.isDigit
    if ds.isEmpty then none else some (sign * (decVal ds : Int))

/-- JavaScript `parseInt` with no radix argument: skip leading whitespace, an
optional sign, then parse the body; `none` models `NaN`. -/
def jsParseInt (l : Line) : Option Int :=
  match l.dropWhile jsIsSpace with
  | '-' :: r => jsParseIntBody (-1) r
  | '+' :: r => jsParseIntBody 1 r
  | t => jsParseIntBody 1 t

/-- Embedding of `Array.prototype.indexOf` on the array of lines: index of the first line
with identical text, `-1` when absent. -/
def jsIndexOf (target : Line) : List Line → Int
  | [] => -1
  | l :: rest =>
    if l = target then 0
    else
      let r := jsIndexOf target rest
      if r = -1 then -1 else r + 1

/-- A regular-expression `.` (matches everything except line terminators). -/
def notNewline (c : Char) : Bool := c ≠ '\n' && c ≠ '\r'

/-- Try the pattern ``  `(0x[a-fA-F0-9]+)` `` anchored at the head of `l`;
returns the capture group. -/
def tryBacktickHexAt (l : Line) : Option Line :=
  match l with
  | '`' :: '0' :: 'x' :: rest =>
    let ds := rest.takeWhile isHexDigit
    if ds.isEmpty then none
    else
      match rest.dropWhile isHexDigit with
      | '`' :: _ => some ('0' :: 'x' :: ds)
      | _ => none
  | _ => none

/-- Embedding of `line.match(/`(0x[a-fA-F0-9]+)`/)?.[1]`: leftmost match of the
backtick-quoted hexadecimal address, capture group 1. -/
def matchBacktickHex : Line → Option Line
  | [] => none
  | l@(_ :: rest) =>
    match tryBacktickHexAt l with
    | some cap => some cap
    | none => matchBacktickHex rest

/-- Try the pattern `deployed on (\d+)` anchored at the head of `l`. -/
def tryDeployedOnAt (l : Line) : Option Line :=
  if startsWith ('d' :: 'e' :: 'p' :: 'l' :: 'o' :: 'y' :: 'e' :: 'd' :: ' ' ::
      'o' :: 'n' :: ' ' :: []) l then
    let ds := (l.drop 12).takeWhile Char.isDigit
    if ds.isEmpty then none else some ds
  else none

/-- Embedding of `line.match(/deployed on (\d+)/)?.[1]`: leftmost match, capture group 1. -/
def matchDeployedOn : Line → Option Line
  | [] => none
  | l@(_ :: rest) =>
    match tryDeployedOnAt l with
    | some cap => some cap
    | none => matchDeployedOn rest

/-- Characters strictly before the first `]`, provided all of them are
matchable by `.` (the lazy group `(.*?)` of `/\[(.*?)\]/`). -/
def upToCloseBracket : Line → Option Line
  | [] => none
  | ']' :: _ => some []
  | c :: rest =>
    if notNewline c then (upToCloseBracket rest).map (c :: ·) else none

/-- Embedding of `line.match(/\[(.*?)\]/)`: leftmost match of a bracketed token,
capture group 1. -/
def matchBracket : Line → Option Line
  | [] => none
  | l@(_ :: rest) =>
    match l with
    | '[' :: after =>
      match upToCloseBracket after with
      | some cap => some cap
      | none => matchBracket rest
    | _ => matchBracket rest

/-- Greedy suffix step of ``/Response: `(.+)`/``: inside the maximal run of
`.`-matchable characters, capture everything before the last backtick,
requiring at least one captured character. -/
def respCapture (rest : Line) : Option Line :=
  let m := rest.takeWhile notNewline
  match m.reverse.dropWhile (fun c => c ≠ '`') with
  | '`' :: tail => if tail.isEmpty then none else some tail.reverse
  | _ => none

/-- Embedding of ``next.match(/Response: `(.+)`/)?.[1]``: leftmost position where the
literal ``Response: ` `` matches and the greedy capture succeeds. -/
def matchResponse : Line → Option Line
  | [] => none
  | l@(_ :: rest) =>
    if startsWith ('R' :: 'e' :: 's' :: 'p' :: 'o' :: 'n' :: 's' :: 'e' :: ':' ::
        ' ' :: '`' :: []) l then
      match respCapture (l.drop 11) with
      | some cap => some cap
      | none => matchResponse rest
    else matchResponse rest

/-! ## Data model (`src/foundry-logs.ts`, `src/deployment-info.ts`) -/

/-- Embedding of `Partial<Contract>` (`src/foundry-logs.ts`): the in-progress record of the
scanner.  An outer `none` models a key that is absent from the JavaScript
object (so that it does not count for `Object.keys(...).length`); for the
nullable fields an inner `none` models a key that is present with value
`null` (or `undefined`). -/
structure PartialContract where
  address : Option Line := none
  chain : Option Line := none
  verificationStatus : Option (Option Line) := none
  compiler : Option (Option Line) := none
  optimizations : Option (Option Int) := none
  contractPath : Option Line := none
  contractName : Option (Option Line) := none
deriving DecidableEq, Repr

/-- Test for `Object.keys(currentContract).length > 0`: it is false exactly when every
field is absent. -/
def PartialContract.isEmpty (c : PartialContract) : Bool :=
  c.address.isNone && c.chain.isNone && c.verificationStatus.isNone &&
  c.compiler.isNone && c.optimizations.isNone && c.contractPath.isNone &&
  c.contractName.isNone

/-- Embedding of `VirtualTestNet` / `NetworkInfo` (`src/deployment-info.ts`): one
provisioned network environment. -/
structure NetworkInfo where
  id : Line
  adminRpcUrl : Line
  publicRpcUrl : Line
  networkId : Line
  chainId : Int
  testnetSlug : Line
  explorerUrl : Option Line := none
deriving DecidableEq, Repr

/-- The `githubContext` field of the infrastructure snapshot. -/
structure GithubContext where
  workflow : Line
  runId : Line
  runNumber : Line
  job : Line
deriving DecidableEq, Repr

/-- Embedding of `InfrastructureInfo` (`src/deployment-info.ts`).  `networks` is a
`Record<string, NetworkInfo>`; it is modelled as an association list in the
object's key order, so that `Object.values` is the list of second
components. -/
structure InfrastructureInfo where
  networks : List (Line × NetworkInfo)
  timestamp : Line
  githubContext : GithubContext
deriving DecidableEq, Repr

/-- Embedding of `Object.values(infraInfo.networks)`. -/
def objectValues (networks : List (Line × NetworkInfo)) : List NetworkInfo :=
  networks.map Prod.snd

/-- Embedding of `WorkflowInfo` (`src/foundry-logs.ts`). -/
structure WorkflowInfo where
  runNumber : Nat
  workflow : Line
  job : Line
  runId : Nat
deriving DecidableEq, Repr

/-- Embedding of `DeploymentGroup` (`src/foundry-logs.ts`). -/
structure DeploymentGroup where
  virtualTestNet : NetworkInfo
  contracts : List PartialContract
deriving DecidableEq, Repr

/-- Embedding of `ParsedDeployments` (`src/foundry-logs.ts`). -/
structure ParsedDeployments where
  workflow : WorkflowInfo
  deployments : List DeploymentGroup
deriving DecidableEq, Repr

/-! ## The log scanner (`parseDeploymentLogs`, lines 410–454) -/

/-- The mutable per-file state of the scanner loop. -/
structure ScanState where
  currentContract : PartialContract
  contracts : List PartialContract
  isInDeploymentSection : Bool
deriving DecidableEq, Repr

/-- The initial per-file state: empty in-progress record, no output records,
outside the deployment section. -/
def initScanState : ScanState := ⟨{}, [], false⟩

/-- Embedding of `currentContract.compiler = line.split(':')[1]?.trim() || null`. -/
def compilerValue (line : Line) : Option Line :=
  match (splitChar ':' line).get? 1 with
  | none => none
  | some t => let tt := jsTrim t; if tt.isEmpty then none else some tt

/-- Embedding of `currentContract.optimizations = parseInt(...) || null`:
(note that both `NaN` and `0` are falsy, hence mapped to `null`). -/
def optimizationsValue (line : Line) : Option Int :=
  match (splitChar ':' line).get? 1 with
  | none => none
  | some t =>
    match jsParseInt (jsTrim t) with
    | none => none
    | some 0 => none
    | some n => some n

/-- Embedding of ``lines[lines.indexOf(line) + 1]?.match(/Response: `(.+)`/)?.[1] || null``:
the verification-status lookahead.  `lines.indexOf(line)` is the index of the
first line with identical text. -/
def statusValue (allLines : List Line) (line : Line) : Option Line :=
  match allLines.get? (jsIndexOf line allLines + 1).toNat with
  | none => none
  | some next =>
    match matchResponse next with
    | none => none
    | some cap => if cap.isEmpty then none else some cap

/-- The record opened by a `Start verifying contract` line:
`{ address: …match…?.[1] || '', chain: …match…?.[1] || '', verificationStatus: null }`. -/
def openRecord (line : Line) : PartialContract :=
  { address := some ((matchBacktickHex line).getD [])
    chain := some ((matchDeployedOn line).getD [])
    verificationStatus := some none }

/-- The body of the per-line loop of `parseDeploymentLogs` (lines 419–450).
`allLines` is the full array `lines` of the current file, needed for the
`lines.indexOf(line)` lookahead. -/
def processLine (allLines : List Line) (st : ScanState) (line : Line) : ScanState :=
  if jsTrim line = ['#', '#'] then
    { st with isInDeploymentSection := true }
  else if st.isInDeploymentSection then
    if containsSub "Start verifying contract".data line then
      { st with
        contracts :=
          if st.currentContract.isEmpty then st.contracts
          else st.contracts ++ [st.currentContract]
        currentContract := openRecord line }
    else if containsSub "Compiler version:".data line then
      { st with currentContract :=
          { st.currentContract with compiler := some (compilerValue line) } }
    else if containsSub "Optimizations:".data line then
      { st with currentContract :=
          { st.currentContract with optimizations := some (optimizationsValue line) } }
    else if containsSub "Submitting verification for".data line then
      match matchBracket line with
      | none => st
      | some cap =>
        let ps := splitChar ':' cap
        { st with currentContract :=
            { st.currentContract with
              contractPath := some (ps.headD [])
              contractName := some (ps.get? 1) } }
    else if containsSub "Contract verification status:".data line then
      { st with currentContract :=
          { st.currentContract with
            verificationStatus := some (statusValue allLines line) } }
    else st
  else st

/-- The final state of the scanner for one file's lines. -/
def scanFileState (lines : List Line) : ScanState :=
  lines.foldl (processLine lines) initScanState

/-- The per-file scanner: fold the state machine over the file's lines, then
flush the still-open record if it is non-empty (lines 452–454). -/
def scanFile (lines : List Line) : List PartialContract :=
  let st := scanFileState lines
  if st.currentContract.isEmpty then st.contracts
  else st.contracts ++ [st.currentContract]

/-! ## The correlator (lines 456–468) and top level of `parseDeploymentLogs` -/

/-- Embedding of `number.toString()` for an integer-valued JavaScript number: decimal
digits, with a leading `-` when negative.  Implemented with structural fuel
so that it evaluates by kernel reduction. -/
def natDigitsAux : Nat → Nat → List Char → List Char
  | 0, _, acc => acc
  | fuel + 1, n, acc =>
    let d := Char.ofNat (48 + n % 10)
    if n < 10 then d :: acc else natDigitsAux fuel (n / 10) (d :: acc)

/-- Decimal string of an integer (`chainId.toString()`). -/
def intToLine : Int → Line
  | .ofNat n => natDigitsAux (n + 1) n []
  | .negSucc m => '-' :: natDigitsAux (m + 2) (m + 1) []

/-- The network-matching loop nested inside the file loop (lines 457–468),
embedded as the fold that the `for`/`push` loop computes, starting from the
accumulated groups of the previous files. -/
def correlateFile (networks : List NetworkInfo) (contracts : List PartialContract)
    (acc : List DeploymentGroup) : List DeploymentGroup :=
  networks.foldl
    (fun groups network =>
      let matchingContracts :=
        contracts.filter (fun contract => contract.chain = some (intToLine network.chainId))
      if matchingContracts.length > 0 then
        groups ++ [{ virtualTestNet := network, contracts := matchingContracts }]
      else groups)
    acc

/-- Embedding of `parseDeploymentLogs` (`src/foundry-logs.ts`, lines 392–475).
`fileContents` is the list of contents of the `.json` files of the scratch
directory in directory-listing order (the `fs.readdir`/`path.extname` filter
and `fs.readFile` are the I/O boundary); `infraInfo` is the result of
`readInfraForCurrentJob()` (`null` modelled as `none`); `wf` is the GitHub
run context.  The thrown `Error('No infrastructure information found')` is
modelled as the `Except.error` case. -/
def parseDeploymentLogs (wf : WorkflowInfo) (fileContents : List Line)
    (infraInfo : Option InfrastructureInfo) : Except Line ParsedDeployments :=
  match infraInfo with
  | none => .error "No infrastructure information found".data
  | some info =>
    let deploymentGroups :=
      fileContents.foldl
        (fun acc content =>
          let lines := splitChar '\n' content
          correlateFile (objectValues info.networks) (scanFile lines) acc)
        []
    .ok { workflow := wf, deployments := deploymentGroups }

/-! ## The persister (`src/cleanup.ts`, lines 262–275) -/

/-- One file-system write of the final artifact: the destination path and the
report serialized there (`JSON.stringify` is the I/O boundary, so the write
is recorded with the report value itself). -/
structure FsWrite where
  path : Line
  report : ParsedDeployments
deriving DecidableEq, Repr

/-- Embedding of `persistDeployment` (`src/cleanup.ts`, lines 262–264): write the report
to `` `${buildOutDir()}/${currentJobFileBasename()}-deployments.json` ``. -/
def persistDeployment (outDir basename : Line) (deploymentLogs : ParsedDeployments) : FsWrite :=
  { path := outDir ++ ['/'] ++ basename ++ "-deployments.json".data
    report := deploymentLogs }

/-- Embedding of `persistDeploymentInfo` (`src/cleanup.ts`, lines 266–275): parse the
scratch directory, then write the artifact only when at least one deployment
group is present.  The returned list is the trace of report writes performed
(the `fs.rm` of the scratch directory is dropped at the I/O boundary). -/
def persistDeploymentInfo (outDir basename : Line) (wf : WorkflowInfo)
    (fileContents : List Line) (infraInfo : Option InfrastructureInfo) :
    Except Line (List FsWrite) :=
  match parseDeploymentLogs wf fileContents infraInfo with
  | .error e => .error e
  | .ok deploymentInfo =>
    if deploymentInfo.deployments.length > 0 then
      .ok [persistDeployment outDir basename deploymentInfo]
    else .ok []

/-! ## The infra-store key derivation (`src/deployment-info.ts`, lines 733–766) -/

/-- Fuel-indexed worker for `collapseWs`: the fuel bounds the number of
consumed characters, so the recursion is structural and evaluates by kernel
reduction.  Each step consumes at least one character, hence `l.length` fuel
always suffices. -/
def collapseWsAux : Nat → Line → Line
  | 0, _ => []
  | _, [] => []
  | fuel + 1, c :: rest =>
    if jsIsSpace c then '-' :: collapseWsAux fuel (rest.dropWhile jsIsSpace)
    else c :: collapseWsAux fuel rest

/-- Embedding of `.replace(/\s+/g, '-')`: each maximal run of whitespace becomes a single
hyphen. -/
def collapseWs (l : Line) : Line := collapseWsAux l.length l

/-- The character class kept by `.replace(/[^a-zA-Z0-9-]/g, '')`, expressed
on code points: `a`–`z` is 97–122, `A`–`Z` is 65–90, `0`–`9` is 48–57. -/
def keepChar (c : Char) : Bool :=
  (97 ≤ c.toNat && c.toNat ≤ 122) || (65 ≤ c.toNat && c.toNat ≤ 90) ||
  (48 ≤ c.toNat && c.toNat ≤ 57) || c = '-'

/-- Embedding of `String.prototype.toLowerCase` on the ASCII range (the only characters
that survive the preceding filter). -/
def jsToLower (c : Char) : Char :=
  if 65 ≤ c.toNat && c.toNat ≤ 90 then Char.ofNat (c.toNat + 32) else c

/-- Embedding of `sanitizeFileName` (`src/deployment-info.ts`, lines 760–766): replace
slashes with hyphens, collapse whitespace runs to hyphens, drop everything
that is not alphanumeric or a hyphen, then lower-case. -/
def sanitizeFileName (name : Line) : Line :=
  (((collapseWs (name.map (fun c => if c = '/' then '-' else c))).filter
      keepChar).map jsToLower)

/-- Embedding of `currentJobFileBasename` (`src/deployment-info.ts`, lines 733–737): the
run-identity key `` sanitizeFileName(`${runNumber}-${workflow}-${job}`) ``. -/
def currentJobFileBasename (runNumber : Nat) (workflow job : Line) : Line :=
  sanitizeFileName (intToLine runNumber ++ ['-'] ++ workflow ++ ['-'] ++ job)

/-- Lowercase alphanumeric or hyphen: the restricted character set that the
specification requires of storage keys. -/
def isSafeChar (c : Char) : Bool :=
  (97 ≤ c.toNat && c.toNat ≤ 122) || (48 ≤ c.toNat && c.toNat ≤ 57) || c.toNat = 45

/-! ## Spec-side definition (§4.3 of the specification)

`correlateSpec` is written from the specification's words, for comparison
with the embedded code: "For each NetworkEnvironment in the snapshot
(iteration order = snapshot's stored order), select all ContractRecords whose
chain identifier, compared as the decimal string form of the environment's
numeric chain identifier, equals the record's chain field; if the resulting
subset is non-empty, emit one DeploymentGroup." -/

/-- One correlation pass over a set of records, following the
specification's words. -/
def correlateSpec (networks : List NetworkInfo) (records : List PartialContract) :
    List DeploymentGroup :=
  networks.filterMap fun network =>
    let ms := records.filter (fun c => c.chain = some (intToLine network.chainId))
    if ms.isEmpty then none
    else some { virtualTestNet := network, contracts := ms }

/-! ## Concrete fixtures used by counterexamples and witnesses -/

/-- A snapshot environment with chain identifier 1. -/
def exNet : NetworkInfo :=
  { id := "vnet1".data, adminRpcUrl := "https://rpc.admin".data,
    publicRpcUrl := "https://rpc.public".data, networkId := ['1'],
    chainId := 1, testnetSlug := "ci-1".data, explorerUrl := none }

/-- A snapshot holding the single environment `exNet`. -/
def exInfra : InfrastructureInfo :=
  { networks := [(['1'], exNet)], timestamp := "2024-01-01T00:00:00Z".data,
    githubContext := ⟨"wf".data, ['7'], ['3'], "job".data⟩ }

/-- A run identity fixture. -/
def exWf : WorkflowInfo :=
  { runNumber := 3, workflow := "wf".data, job := "job".data, runId := 7 }

/-- A log file consisting of the section marker and one start-marker line for
a contract deployed on chain 1. -/
def exFileContent : Line := "##\nStart verifying contract `0xAB` deployed on 1".data

/-- The contract record produced by scanning `exFileContent`. -/
def exRecord : PartialContract :=
  { address := some "0xAB".data, chain := some ['1'], verificationStatus := some none }

/-- A log file with two verified contracts whose `Contract verification
status:` marker lines have identical text but different `Response:` lines. -/
def dupStatusLines : List Line :=
  [['#', '#'],
   "Start verifying contract `0xAA` deployed on 1".data,
   "Contract verification status:".data,
   "Response: `OK`".data,
   "Start verifying contract `0xBB` deployed on 1".data,
   "Contract verification status:".data,
   "Response: `FAIL`".data]

/-! ## Helper lemmas: the correlator refinement -/

theorem correlateFile_nil (cs : List PartialContract) (acc : List DeploymentGroup) :
    correlateFile [] cs acc = acc := rfl

theorem correlateFile_cons (nw : NetworkInfo) (nws : List NetworkInfo)
    (cs : List PartialContract) (acc : List DeploymentGroup) :
    correlateFile (nw :: nws) cs acc =
      correlateFile nws cs
        (if (cs.filter (fun c => c.chain = some (intToLine nw.chainId))).length > 0 then
           acc ++ [{ virtualTestNet := nw,
                     contracts := cs.filter (fun c => c.chain = some (intToLine nw.chainId)) }]
         else acc) := rfl

theorem correlateSpec_cons (nw : NetworkInfo) (nws : List NetworkInfo)
    (cs : List PartialContract) :
    correlateSpec (nw :: nws) cs =
      (if (cs.filter (fun c => c.chain = some (intToLine nw.chainId))).isEmpty then
        correlateSpec nws cs
      else
        { virtualTestNet := nw,
          contracts := cs.filter (fun c => c.chain = some (intToLine nw.chainId)) } ::
          correlateSpec nws cs) := by
  cases h : (cs.filter (fun c => c.chain = some (intToLine nw.chainId))).isEmpty with
  | true =>
    have h0 : (cs.filter (fun c => c.chain = some (intToLine nw.chainId))) = [] :=
      List.isEmpty_iff.mp h
    simp only [correlateSpec, List.filterMap_cons, h0]
    simp
  | false =>
    have h0 : (cs.filter (fun c => c.chain = some (intToLine nw.chainId))) ≠ [] := by
      intro hh
      rw [hh] at h
      simp at h
    simp only [correlateSpec, List.filterMap_cons]
    simp [h0]

/-- The `for`/`push` loop of the correlator computes `acc ++ correlateSpec`. -/
theorem correlateFile_eq_spec (nws : List NetworkInfo) (cs : List PartialContract)
    (acc : List DeploymentGroup) :
    correlateFile nws cs acc = acc ++ correlateSpec nws cs := by
  induction nws generalizing acc with
  | nil => simp [correlateFile_nil, correlateSpec]
  | cons nw rest ih =>
    rw [correlateFile_cons, correlateSpec_cons]
    cases hnil : (cs.filter (fun c => c.chain = some (intToLine nw.chainId))).isEmpty with
    | true =>
      have h0 : (cs.filter (fun c => c.chain = some (intToLine nw.chainId))) = [] :=
        List.isEmpty_iff.mp hnil
      simp only [h0, List.length_nil, gt_iff_lt, Nat.lt_irrefl, if_false, List.isEmpty_nil,
        if_true]
      exact ih acc
    | false =>
      have hne : (cs.filter (fun c => c.chain = some (intToLine nw.chainId))) ≠ [] := by
        intro hh
        rw [hh] at hnil
        simp at hnil
      have hlen : (cs.filter (fun c => c.chain = some (intToLine nw.chainId))).length > 0 :=
        List.length_pos.mpr hne
      rw [if_pos hlen, ih]
      simp [List.append_assoc]

/-- The file loop of `parseDeploymentLogs` computes the concatenation of the
per-file correlations. -/
theorem parseFold_eq_bind (nws : List NetworkInfo) (fs : List Line)
    (acc : List DeploymentGroup) :
    fs.foldl
      (fun acc content =>
        correlateFile nws (scanFile (splitChar '\n' content)) acc) acc
      = acc ++ fs.flatMap (fun content => correlateSpec nws (scanFile (splitChar '\n' content))) := by
  induction fs generalizing acc with
  | nil => simp
  | cons f rest ih =>
    simp only [List.foldl_cons, List.flatMap_cons]
    rw [correlateFile_eq_spec, ih, List.append_assoc]

/-- Evaluation of `parseDeploymentLogs` with a snapshot present: the deployments are the
per-file correlations, concatenated in file order. -/
theorem parseDeploymentLogs_eq_bind (wf : WorkflowInfo) (fs : List Line)
    (info : InfrastructureInfo) :
    parseDeploymentLogs wf fs (some info) =
      .ok { workflow := wf,
            deployments := fs.flatMap (fun content =>
              correlateSpec (objectValues info.networks) (scanFile (splitChar '\n' content))) } := by
  simp only [parseDeploymentLogs]
  rw [parseFold_eq_bind]
  rfl

/-- A group produced by one correlation pass has a non-empty contract list. -/
theorem correlateSpec_mem_ne_nil (nws : List NetworkInfo) (cs : List PartialContract)
    (g : DeploymentGroup) (hg : g ∈ correlateSpec nws cs) : g.contracts ≠ [] := by
  simp only [correlateSpec, List.mem_filterMap] at hg
  obtain ⟨nw, _, hf⟩ := hg
  split at hf
  · cases hf
  · rename_i hne
    cases hf
    simpa using hne

/-! ## Claim theorems: correlator shape (C1), missing snapshot (C5),
non-empty groups (C8), persistence (C9) -/

/-- C1 (amended): the correlator runs once per log file.  For each file it
iterates the snapshot's environments in stored order and emits one
DeploymentGroup per environment holding that file's matching records when
this set is non-empty, so an environment appears at most once per file (but
may appear once for each file, not once overall). -/
theorem parseDeploymentLogs_groups_per_file :
    (∀ (wf : WorkflowInfo) (fs : List Line) (info : InfrastructureInfo),
      parseDeploymentLogs wf fs (some info) =
        .ok { workflow := wf,
              deployments := fs.flatMap (fun content =>
                correlateSpec (objectValues info.networks)
                  (scanFile (splitChar '\n' content))) }) ∧
    (∀ (nws : List NetworkInfo) (rs : List PartialContract),
      ((correlateSpec nws rs).map DeploymentGroup.virtualTestNet).Sublist nws) := by
  constructor
  · exact parseDeploymentLogs_eq_bind
  · intro nws rs
    induction nws with
    | nil => simp [correlateSpec]
    | cons nw rest ih =>
      rw [correlateSpec_cons]
      cases h : (rs.filter (fun c => c.chain = some (intToLine nw.chainId))).isEmpty with
      | true =>
        rw [if_pos rfl]
        exact ih.cons nw
      | false =>
        rw [if_neg Bool.false_ne_true, List.map_cons]
        exact ih.cons₂ nw

/-- C1 counterexample: with one environment (chain 1) and the same
single-contract log file appearing twice in the directory, the output lists
that environment twice — once per file — refuting "exactly one
DeploymentGroup containing all ContractRecords across all log files" and
"each NetworkEnvironment appears at most once". -/
theorem parseDeploymentLogs_duplicate_network :
    parseDeploymentLogs exWf [exFileContent, exFileContent] (some exInfra) =
      .ok { workflow := exWf,
            deployments :=
              [{ virtualTestNet := exNet, contracts := [exRecord] },
               { virtualTestNet := exNet, contracts := [exRecord] }] } ∧
    ([{ virtualTestNet := exNet, contracts := [exRecord] },
      { virtualTestNet := exNet, contracts := [exRecord] }] : List DeploymentGroup).map
        DeploymentGroup.virtualTestNet = [exNet, exNet] :=
  ⟨rfl, rfl⟩

/-- C5: the parsing/correlation step returns the
"No infrastructure information found" error exactly when no snapshot is
available, and with a snapshot present it always succeeds. -/
theorem parseDeploymentLogs_missing_snapshot_iff :
    ∀ (wf : WorkflowInfo) (fs : List Line),
      (∀ infraInfo, (parseDeploymentLogs wf fs infraInfo =
          .error "No infrastructure information found".data) ↔ infraInfo = none) ∧
      (∀ info, ∃ r, parseDeploymentLogs wf fs (some info) = .ok r) := by
  intro wf fs
  constructor
  · intro infraInfo
    cases infraInfo with
    | none => simp [parseDeploymentLogs]
    | some info =>
      constructor
      · intro h
        rw [parseDeploymentLogs_eq_bind] at h
        cases h
      · intro h
        cases h
  · intro info
    exact ⟨_, parseDeploymentLogs_eq_bind wf fs info⟩

/-- C8: every DeploymentGroup in the correlator's output has a non-empty
contracts sequence. -/
theorem parseDeploymentLogs_groups_nonempty :
    ∀ (wf : WorkflowInfo) (fs : List Line) (infraInfo : Option InfrastructureInfo)
      (res : ParsedDeployments),
      parseDeploymentLogs wf fs infraInfo = .ok res →
      ∀ g ∈ res.deployments, g.contracts ≠ [] := by
  intro wf fs infraInfo res h g hg
  cases infraInfo with
  | none => simp [parseDeploymentLogs] at h
  | some info =>
    rw [parseDeploymentLogs_eq_bind] at h
    cases h
    simp only [List.mem_flatMap] at hg
    obtain ⟨content, _, hgc⟩ := hg
    exact correlateSpec_mem_ne_nil _ _ _ hgc

/-- C8 witness: the single group obtained from the fixture file has a
non-empty contract list. -/
theorem parseDeploymentLogs_groups_nonempty_witness :
    ({ virtualTestNet := exNet, contracts := [exRecord] } : DeploymentGroup).contracts ≠ [] :=
  parseDeploymentLogs_groups_nonempty exWf [exFileContent] (some exInfra)
    { workflow := exWf, deployments := [{ virtualTestNet := exNet, contracts := [exRecord] }] }
    (by rfl)
    { virtualTestNet := exNet, contracts := [exRecord] }
    (by decide)

/-- C9: the persister writes the report exactly when the parsed report has at
least one DeploymentGroup; with zero groups the write trace is empty. -/
theorem persistDeploymentInfo_write_iff_nonempty :
    ∀ (outDir basename : Line) (wf : WorkflowInfo) (fs : List Line)
      (infraInfo : Option InfrastructureInfo) (info : ParsedDeployments),
      parseDeploymentLogs wf fs infraInfo = .ok info →
      persistDeploymentInfo outDir basename wf fs infraInfo =
        .ok (if info.deployments.isEmpty then []
             else [persistDeployment outDir basename info]) := by
  intro outDir basename wf fs infraInfo info h
  simp only [persistDeploymentInfo, h]
  cases hd : info.deployments with
  | nil => simp [hd]
  | cons g gs => simp [hd]

/-- C9 witness: with the fixture snapshot and log file the report is
non-empty, and exactly one write of the report is performed. -/
theorem persistDeploymentInfo_write_iff_nonempty_witness :
    persistDeploymentInfo "/.tenderly".data "3-wf-job".data exWf [exFileContent]
        (some exInfra) =
      .ok [persistDeployment "/.tenderly".data "3-wf-job".data
            { workflow := exWf,
              deployments := [{ virtualTestNet := exNet, contracts := [exRecord] }] }] := by
  have h := persistDeploymentInfo_write_iff_nonempty "/.tenderly".data "3-wf-job".data
    exWf [exFileContent] (some exInfra)
    { workflow := exWf, deployments := [{ virtualTestNet := exNet, contracts := [exRecord] }] }
    (by rfl)
  simpa using h


/-! ## Branch characterizations of `processLine` -/

theorem processLine_section (all : List Line) (st : ScanState) (line : Line)
    (h : jsTrim line = ['#', '#']) :
    processLine all st line = { st with isInDeploymentSection := true } := by
  simp [processLine, h]

theorem processLine_outside (all : List Line) (st : ScanState) (line : Line)
    (h1 : jsTrim line ≠ ['#', '#']) (h2 : st.isInDeploymentSection = false) :
    processLine all st line = st := by
  simp [processLine, h1, h2]

theorem processLine_start (all : List Line) (st : ScanState) (line : Line)
    (h1 : jsTrim line ≠ ['#', '#']) (h2 : st.isInDeploymentSection = true)
    (h3 : containsSub "Start verifying contract".data line = true) :
    processLine all st line =
      { st with
        contracts :=
          if st.currentContract.isEmpty then st.contracts
          else st.contracts ++ [st.currentContract]
        currentContract := openRecord line } := by
  simp [processLine, h1, h2, h3]

theorem processLine_compiler (all : List Line) (st : ScanState) (line : Line)
    (h1 : jsTrim line ≠ ['#', '#']) (h2 : st.isInDeploymentSection = true)
    (h3 : containsSub "Start verifying contract".data line = false)
    (h4 : containsSub "Compiler version:".data line = true) :
    processLine all st line =
      { st with currentContract :=
          { st.currentContract with compiler := some (compilerValue line) } } := by
  simp [processLine, h1, h2, h3, h4]

theorem processLine_opt (all : List Line) (st : ScanState) (line : Line)
    (h1 : jsTrim line ≠ ['#', '#']) (h2 : st.isInDeploymentSection = true)
    (h3 : containsSub "Start verifying contract".data line = false)
    (h4 : containsSub "Compiler version:".data line = false)
    (h5 : containsSub "Optimizations:".data line = true) :
    processLine all st line =
      { st with currentContract :=
          { st.currentContract with optimizations := some (optimizationsValue line) } } := by
  simp [processLine, h1, h2, h3, h4, h5]

theorem processLine_submitting (all : List Line) (st : ScanState) (line : Line)
    (h1 : jsTrim line ≠ ['#', '#']) (h2 : st.isInDeploymentSection = true)
    (h3 : containsSub "Start verifying contract".data line = false)
    (h4 : containsSub "Compiler version:".data line = false)
    (h5 : containsSub "Optimizations:".data line = false)
    (h6 : containsSub "Submitting verification for".data line = true) :
    processLine all st line =
      (match matchBracket line with
       | none => st
       | some cap =>
         { st with currentContract :=
             { st.currentContract with
               contractPath := some ((splitChar ':' cap).headD [])
               contractName := some ((splitChar ':' cap).get? 1) } }) := by
  simp [processLine, h1, h2, h3, h4, h5, h6]

theorem processLine_status (all : List Line) (st : ScanState) (line : Line)
    (h1 : jsTrim line ≠ ['#', '#']) (h2 : st.isInDeploymentSection = true)
    (h3 : containsSub "Start verifying contract".data line = false)
    (h4 : containsSub "Compiler version:".data line = false)
    (h5 : containsSub "Optimizations:".data line = false)
    (h6 : containsSub "Submitting verification for".data line = false)
    (h7 : containsSub "Contract verification status:".data line = true) :
    processLine all st line =
      { st with currentContract :=
          { st.currentContract with
            verificationStatus := some (statusValue all line) } } := by
  simp [processLine, h1, h2, h3, h4, h5, h6, h7]

theorem processLine_no_match (all : List Line) (st : ScanState) (line : Line)
    (h1 : jsTrim line ≠ ['#', '#'])
    (h3 : containsSub "Start verifying contract".data line = false)
    (h4 : containsSub "Compiler version:".data line = false)
    (h5 : containsSub "Optimizations:".data line = false)
    (h6 : containsSub "Submitting verification for".data line = false)
    (h7 : containsSub "Contract verification status:".data line = false) :
    processLine all st line = st := by
  simp [processLine, h1, h3, h4, h5, h6, h7]

/-! ## The deployment-section flag: set once, never cleared -/

theorem processLine_flag_mono (all : List Line) (st : ScanState) (line : Line)
    (h : st.isInDeploymentSection = true) :
    (processLine all st line).isInDeploymentSection = true := by
  unfold processLine
  repeat' split
  all_goals first
  | rfl
  | exact h

theorem processLine_flag_set (all : List Line) (st : ScanState) (line : Line)
    (h : jsTrim line = ['#', '#']) :
    (processLine all st line).isInDeploymentSection = true := by
  simp [processLine_section all st line h]

theorem foldl_flag_mono (all : List Line) (L : List Line) (st : ScanState)
    (h : st.isInDeploymentSection = true) :
    (L.foldl (processLine all) st).isInDeploymentSection = true := by
  induction L generalizing st with
  | nil => exact h
  | cons l rest ih => exact ih _ (processLine_flag_mono all st l h)

theorem foldl_flag_of_mem (all : List Line) (L : List Line) (st : ScanState)
    (h : ∃ l ∈ L, jsTrim l = ['#', '#']) :
    (L.foldl (processLine all) st).isInDeploymentSection = true := by
  induction L generalizing st with
  | nil => simp at h
  | cons l rest ih =>
    obtain ⟨x, hx, htrim⟩ := h
    rcases List.mem_cons.mp hx with rfl | hmem
    · exact foldl_flag_mono all rest _ (processLine_flag_set all st x htrim)
    · exact ih _ ⟨x, hmem, htrim⟩

/-- C10: per-file isolation of the scanner's state machine.  The deployments
of a directory split into two parts are the concatenation of the two parts'
deployments (no file's `##` marker affects another file); every file starts
from the initial state (flag down, no open record); and the
`isInDeploymentSection` flag, once raised by a `##` line, is never cleared by
any later line. -/
theorem scanner_per_file_isolation :
    (∀ (wf : WorkflowInfo) (fs1 fs2 : List Line) (info : InfrastructureInfo),
      ∃ d1 d2,
        parseDeploymentLogs wf fs1 (some info) =
          .ok { workflow := wf, deployments := d1 } ∧
        parseDeploymentLogs wf fs2 (some info) =
          .ok { workflow := wf, deployments := d2 } ∧
        parseDeploymentLogs wf (fs1 ++ fs2) (some info) =
          .ok { workflow := wf, deployments := d1 ++ d2 }) ∧
    (initScanState.isInDeploymentSection = false ∧
      initScanState.currentContract.isEmpty = true ∧
      ∀ lines, scanFileState lines = lines.foldl (processLine lines) initScanState) ∧
    (∀ (all : List Line) (st : ScanState) (line : Line),
      st.isInDeploymentSection = true →
      (processLine all st line).isInDeploymentSection = true) ∧
    (∀ (all : List Line) (st : ScanState) (line : Line),
      jsTrim line = ['#', '#'] →
      (processLine all st line).isInDeploymentSection = true) := by
  refine ⟨?_, ⟨rfl, rfl, fun _ => rfl⟩, processLine_flag_mono, processLine_flag_set⟩
  intro wf fs1 fs2 info
  refine ⟨_, _, parseDeploymentLogs_eq_bind wf fs1 info,
    parseDeploymentLogs_eq_bind wf fs2 info, ?_⟩
  rw [parseDeploymentLogs_eq_bind]
  simp [List.flatMap_append]

/-- C10 witness: the flag stays raised on an unrecognized line, and a `##`
line raises it. -/
theorem scanner_per_file_isolation_witness :
    (processLine [] ⟨{}, [], true⟩ "unrecognized line".data).isInDeploymentSection = true ∧
    (processLine [] initScanState ['#', '#']).isInDeploymentSection = true :=
  ⟨scanner_per_file_isolation.2.2.1 [] ⟨{}, [], true⟩ "unrecognized line".data rfl,
   scanner_per_file_isolation.2.2.2 [] initScanState ['#', '#'] (by decide)⟩

/-! ## End-of-file flush (C7) -/

theorem openRecord_not_empty (line : Line) : (openRecord line).isEmpty = false := by
  simp [openRecord, PartialContract.isEmpty]

/-- A line without the start marker never moves the open record into the
output list, and leaves the open record either untouched or non-empty. -/
theorem processLine_no_start (all : List Line) (st : ScanState) (line : Line)
    (hs : containsSub "Start verifying contract".data line = false) :
    (processLine all st line).contracts = st.contracts ∧
    ((processLine all st line).currentContract = st.currentContract ∨
     (processLine all st line).currentContract.isEmpty = false) := by
  by_cases h1 : jsTrim line = ['#', '#']
  · rw [processLine_section all st line h1]
    exact ⟨rfl, Or.inl rfl⟩
  · by_cases h2 : st.isInDeploymentSection = true
    · by_cases h4 : containsSub "Compiler version:".data line = true
      · rw [processLine_compiler all st line h1 h2 hs h4]
        exact ⟨rfl, Or.inr (by simp [PartialContract.isEmpty])⟩
      · by_cases h5 : containsSub "Optimizations:".data line = true
        · rw [processLine_opt all st line h1 h2 hs (Bool.not_eq_true _ ▸ eq_false_of_ne_true h4) h5]
          exact ⟨rfl, Or.inr (by simp [PartialContract.isEmpty])⟩
        · by_cases h6 : containsSub "Submitting verification for".data line = true
          · rw [processLine_submitting all st line h1 h2 hs
              (eq_false_of_ne_true h4) (eq_false_of_ne_true h5) h6]
            cases matchBracket line with
            | none => exact ⟨rfl, Or.inl rfl⟩
            | some cap => exact ⟨rfl, Or.inr (by simp [PartialContract.isEmpty])⟩
          · by_cases h7 : containsSub "Contract verification status:".data line = true
            · rw [processLine_status all st line h1 h2 hs (eq_false_of_ne_true h4)
                (eq_false_of_ne_true h5) (eq_false_of_ne_true h6) h7]
              exact ⟨rfl, Or.inr (by simp [PartialContract.isEmpty])⟩
            · rw [processLine_no_match all st line h1 hs (eq_false_of_ne_true h4)
                (eq_false_of_ne_true h5) (eq_false_of_ne_true h6) (eq_false_of_ne_true h7)]
              exact ⟨rfl, Or.inl rfl⟩
    · rw [processLine_outside all st line h1 (eq_false_of_ne_true h2)]
      exact ⟨rfl, Or.inl rfl⟩

/-- Folding lines without start markers over a state with a non-empty open
record keeps the record non-empty and the output list unchanged. -/
theorem foldl_no_start_keeps (all : List Line) (L : List Line) (st : ScanState)
    (hne : st.currentContract.isEmpty = false)
    (h : ∀ l ∈ L, containsSub "Start verifying contract".data l = false) :
    (L.foldl (processLine all) st).currentContract.isEmpty = false ∧
    (L.foldl (processLine all) st).contracts = st.contracts := by
  induction L generalizing st with
  | nil => exact ⟨hne, rfl⟩
  | cons l rest ih =>
    have hl := h l (List.mem_cons_self l rest)
    obtain ⟨hc, hcc⟩ := processLine_no_start all st l hl
    have hne2 : (processLine all st l).currentContract.isEmpty = false := by
      rcases hcc with heq | hfalse
      · rw [heq]; exact hne
      · exact hfalse
    obtain ⟨ih1, ih2⟩ := ih (processLine all st l) hne2
      (fun x hx => h x (List.mem_cons_of_mem l hx))
    refine ⟨?_, ?_⟩ <;> rw [List.foldl_cons]
    · exact ih1
    · rw [ih2, hc]

/-- C7: a record opened by a `Start verifying contract` line, with no later
start marker before end of file, is still flushed: the scan output ends with
the (non-empty) record that is open when the file ends. -/
theorem scanFile_eof_flush (L1 L2 : List Line) (s : Line)
    (hstart : containsSub "Start verifying contract".data s = true)
    (hs2 : jsTrim s ≠ ['#', '#'])
    (hsec : ∃ l ∈ L1, jsTrim l = ['#', '#'])
    (hnone : ∀ l ∈ L2, containsSub "Start verifying contract".data l = false) :
    (scanFileState (L1 ++ s :: L2)).currentContract.isEmpty = false ∧
    scanFile (L1 ++ s :: L2) =
      (scanFileState (L1 ++ s :: L2)).contracts ++
        [(scanFileState (L1 ++ s :: L2)).currentContract] := by
  have key : (scanFileState (L1 ++ s :: L2)).currentContract.isEmpty = false := by
    unfold scanFileState
    rw [List.foldl_append, List.foldl_cons]
    set all := L1 ++ s :: L2 with hall
    set st1 := L1.foldl (processLine all) initScanState with hst1
    have hflag : st1.isInDeploymentSection = true := foldl_flag_of_mem all L1 _ hsec
    rw [processLine_start all st1 s hs2 hflag hstart]
    have hopen : (openRecord s).isEmpty = false := openRecord_not_empty s
    exact (foldl_no_start_keeps all L2 _ (by simpa using hopen) hnone).1
  refine ⟨key, ?_⟩
  simp only [scanFile]
  rw [key]
  simp

/-- C7 witness: a `##` line, one start-marker line and a trailing field line;
the opened record is flushed as the final record. -/
theorem scanFile_eof_flush_witness :
    (scanFileState [['#', '#'], "Start verifying contract `0xAB` deployed on 1".data,
        "Compiler version: 0.8.19".data]).currentContract.isEmpty = false ∧
    scanFile [['#', '#'], "Start verifying contract `0xAB` deployed on 1".data,
        "Compiler version: 0.8.19".data] =
      (scanFileState [['#', '#'], "Start verifying contract `0xAB` deployed on 1".data,
          "Compiler version: 0.8.19".data]).contracts ++
        [(scanFileState [['#', '#'], "Start verifying contract `0xAB` deployed on 1".data,
            "Compiler version: 0.8.19".data]).currentContract] :=
  scanFile_eof_flush [['#', '#']] ["Compiler version: 0.8.19".data]
    "Start verifying contract `0xAB` deployed on 1".data
    (by decide) (by decide) ⟨['#', '#'], by decide, by decide⟩ (by decide)

/-! ## Scans with no recognized markers (C2) -/

theorem foldl_outside_id (all : List Line) (L : List Line) (st : ScanState)
    (hf : st.isInDeploymentSection = false)
    (h : ∀ l ∈ L, jsTrim l ≠ ['#', '#']) :
    L.foldl (processLine all) st = st := by
  induction L generalizing st with
  | nil => rfl
  | cons l rest ih =>
    rw [List.foldl_cons, processLine_outside all st l (h l (List.mem_cons_self l rest)) hf]
    exact ih st hf (fun x hx => h x (List.mem_cons_of_mem l hx))

theorem processLine_preserves (all : List Line) (st : ScanState) (line : Line)
    (h3 : containsSub "Start verifying contract".data line = false)
    (h4 : containsSub "Compiler version:".data line = false)
    (h5 : containsSub "Optimizations:".data line = false)
    (h6 : containsSub "Submitting verification for".data line = false)
    (h7 : containsSub "Contract verification status:".data line = false) :
    (processLine all st line).currentContract = st.currentContract ∧
    (processLine all st line).contracts = st.contracts := by
  by_cases h1 : jsTrim line = ['#', '#']
  · rw [processLine_section all st line h1]
    exact ⟨rfl, rfl⟩
  · rw [processLine_no_match all st line h1 h3 h4 h5 h6 h7]
    exact ⟨rfl, rfl⟩

theorem foldl_no_marker_keeps (all : List Line) (L : List Line) (st : ScanState)
    (h : ∀ l ∈ L, containsSub "Start verifying contract".data l = false ∧
      containsSub "Compiler version:".data l = false ∧
      containsSub "Optimizations:".data l = false ∧
      containsSub "Submitting verification for".data l = false ∧
      containsSub "Contract verification status:".data l = false) :
    (L.foldl (processLine all) st).currentContract = st.currentContract ∧
    (L.foldl (processLine all) st).contracts = st.contracts := by
  induction L generalizing st with
  | nil => exact ⟨rfl, rfl⟩
  | cons l rest ih =>
    obtain ⟨h3, h4, h5, h6, h7⟩ := h l (List.mem_cons_self l rest)
    obtain ⟨hc, hcs⟩ := processLine_preserves all st l h3 h4 h5 h6 h7
    obtain ⟨ih1, ih2⟩ := ih (processLine all st l) (fun x hx => h x (List.mem_cons_of_mem l hx))
    refine ⟨?_, ?_⟩ <;> rw [List.foldl_cons]
    · rw [ih1, hc]
    · rw [ih2, hcs]

/-- C2 (amended): a file with zero `Start verifying contract` markers
contributes an empty record sequence provided that, in addition, either the
file has no `##` section-marker line, or it has no recognized field lines
(`Compiler version:` / `Optimizations:` / `Submitting verification for` /
`Contract verification status:`).  The unconditional form of the claim is
refuted by `scanFile_phantom_record`: inside a section, a field line mutates
the (empty) in-progress object and the end-of-file flush emits it. -/
theorem scanFile_empty_of_no_markers (lines : List Line)
    (hstart : ∀ l ∈ lines, containsSub "Start verifying contract".data l = false)
    (hrest :
      (∀ l ∈ lines, jsTrim l ≠ ['#', '#']) ∨
      (∀ l ∈ lines, containsSub "Compiler version:".data l = false ∧
        containsSub "Optimizations:".data l = false ∧
        containsSub "Submitting verification for".data l = false ∧
        containsSub "Contract verification status:".data l = false)) :
    scanFile lines = [] := by
  rcases hrest with hA | hB
  · have hstate : scanFileState lines = initScanState :=
      foldl_outside_id lines lines initScanState rfl hA
    simp [scanFile, hstate, initScanState, PartialContract.isEmpty]
  · have hkeep := foldl_no_marker_keeps lines lines initScanState
      (fun l hl => ⟨hstart l hl, (hB l hl).1, (hB l hl).2.1, (hB l hl).2.2.1, (hB l hl).2.2.2⟩)
    simp only [scanFile]
    rw [show scanFileState lines = lines.foldl (processLine lines) initScanState from rfl]
    rw [hkeep.1, hkeep.2]
    simp [initScanState, PartialContract.isEmpty]

/-- C2 witness: a file whose lines carry none of the recognized markers scans
to the empty sequence. -/
theorem scanFile_empty_of_no_markers_witness :
    scanFile ["Compiling 12 files with 0.8.19".data, "Script ran successfully.".data] = [] :=
  scanFile_empty_of_no_markers
    ["Compiling 12 files with 0.8.19".data, "Script ran successfully.".data]
    (by decide) (Or.inl (by decide))

/-- C2 counterexample: the section marker followed by a `Compiler version:`
field line — and zero start markers — produces one phantom record, so the
scan is not empty. -/
theorem scanFile_phantom_record :
    scanFile [['#', '#'], "Compiler version: 0.8.19".data] ≠ [] ∧
    scanFile [['#', '#'], "Compiler version: 0.8.19".data] =
      [{ compiler := some (some "0.8.19".data) }] := by
  exact ⟨by decide, by decide⟩

/-! ## The verification-status lookahead bug (C3) -/

/-- C3 (code bug): the lookahead uses `lines.indexOf(line)`, the index of the
first line with identical text.  In this file the two `Contract verification
status:` marker lines are textually identical, so both records receive the
`Response:` token that follows the *first* marker line: the second record
gets `OK` although the line immediately following its own marker line is
``Response: `FAIL` `` (second conjunct).  The claim — and the specification's
"immediately following line" — require `FAIL` for the second record. -/
theorem scanFile_indexOf_lookahead_bug :
    (scanFile dupStatusLines).map
        (fun c => (c.address, c.verificationStatus)) =
      [(some "0xAA".data, some (some "OK".data)),
       (some "0xBB".data, some (some "OK".data))] ∧
    matchResponse "Response: `FAIL`".data = some "FAIL".data := by
  exact ⟨by decide, by decide⟩

/-! ## Substring and split lemmas (used for C4) -/

theorem startsWith_append (p t : Line) : startsWith p (p ++ t) = true := by
  induction p with
  | nil => rfl
  | cons c cs ih => simp [startsWith, ih]

theorem containsSub_of_startsWith (sub l : Line) (h : startsWith sub l = true) :
    containsSub sub l = true := by
  cases l with
  | nil => exact h
  | cons c rest => simp [containsSub, h]

theorem startsWith_mem (sub : Line) : ∀ (l : Line), startsWith sub l = true →
    ∀ c ∈ sub, c ∈ l := by
  induction sub with
  | nil => intro l _ c hc; cases hc
  | cons p ps ih =>
    intro l h c hc
    cases l with
    | nil => cases h
    | cons a as =>
      simp only [startsWith, Bool.and_eq_true, decide_eq_true_eq] at h
      obtain ⟨rfl, h2⟩ := h
      rcases List.mem_cons.mp hc with rfl | hmem
      · exact List.mem_cons_self _ _
      · exact List.mem_cons_of_mem _ (ih as h2 c hmem)

theorem containsSub_mem (sub : Line) : ∀ (l : Line), containsSub sub l = true →
    ∀ c ∈ sub, c ∈ l := by
  intro l
  induction l with
  | nil =>
    intro h c hc
    cases sub with
    | nil => cases hc
    | cons p ps => cases h
  | cons a as ih =>
    intro h c hc
    rcases Bool.or_eq_true_iff.mp (by simpa [containsSub] using h) with hsw | hrest
    · exact startsWith_mem sub (a :: as) hsw c hc
    · exact List.mem_cons_of_mem _ (ih hrest c hc)

theorem containsSub_eq_false (sub l : Line) (c : Char) (hc : c ∈ sub) (hl : c ∉ l) :
    containsSub sub l = false := by
  cases h : containsSub sub l with
  | false => rfl
  | true => exact absurd (containsSub_mem sub l h c hc) hl

theorem splitChar_ne_nil (sep : Char) (l : Line) : splitChar sep l ≠ [] := by
  cases l with
  | nil => simp [splitChar]
  | cons c rest =>
    simp only [splitChar]
    cases splitChar sep rest with
    | nil => simp
    | cons g gs =>
      by_cases h : c = sep <;> simp [h]

theorem splitChar_cons_sep (sep : Char) (l : Line) :
    splitChar sep (sep :: l) = [] :: splitChar sep l := by
  simp only [splitChar]
  cases h : splitChar sep l with
  | nil => exact absurd h (splitChar_ne_nil sep l)
  | cons g gs => simp

theorem splitChar_cons_ne (sep c : Char) (l : Line) (h : c ≠ sep) :
    splitChar sep (c :: l) =
      (c :: (splitChar sep l).headD []) :: (splitChar sep l).tail := by
  simp only [splitChar]
  cases hs : splitChar sep l with
  | nil => exact absurd hs (splitChar_ne_nil sep l)
  | cons g gs => simp [h]

theorem splitChar_no_sep (sep : Char) (l : Line) (h : ∀ c ∈ l, c ≠ sep) :
    splitChar sep l = [l] := by
  induction l with
  | nil => rfl
  | cons c rest ih =>
    rw [splitChar_cons_ne sep c rest (h c (List.mem_cons_self c rest))]
    rw [ih (fun x hx => h x (List.mem_cons_of_mem c hx))]
    rfl

theorem splitChar_append_sep (sep : Char) (p l : Line) (hp : ∀ c ∈ p, c ≠ sep) :
    splitChar sep (p ++ sep :: l) = p :: splitChar sep l := by
  induction p with
  | nil => simpa using splitChar_cons_sep sep l
  | cons c cs ih =>
    rw [List.cons_append, splitChar_cons_ne sep c (cs ++ sep :: l)
      (hp c (List.mem_cons_self c cs))]
    rw [ih (fun x hx => hp x (List.mem_cons_of_mem c hx))]
    rfl

/-! ## Trim and parseInt lemmas (used for C4) -/

theorem isDigit_not_space (c : Char) (h : c.isDigit = true) : jsIsSpace c = false := by
  cases hs : jsIsSpace c with
  | false => rfl
  | true =>
    simp only [jsIsSpace, Bool.or_eq_true, decide_eq_true_eq] at hs
    rcases hs with ((((rfl | rfl) | rfl) | rfl) | rfl) | rfl <;> exact absurd h (by decide)

theorem dropWhile_of_all_false (p : Char → Bool) (l : Line) (h : ∀ c ∈ l, p c = false) :
    l.dropWhile p = l := by
  cases l with
  | nil => rfl
  | cons c rest =>
    exact List.dropWhile_cons_of_neg (by simp [h c (List.mem_cons_self c rest)])

theorem takeWhile_of_all_true (p : Char → Bool) (l : Line) (h : ∀ c ∈ l, p c = true) :
    l.takeWhile p = l :=
  List.takeWhile_eq_self_iff.mpr h

theorem jsTrim_of_no_space (l : Line) (h : ∀ c ∈ l, jsIsSpace c = false) :
    jsTrim l = l := by
  unfold jsTrim
  rw [dropWhile_of_all_false jsIsSpace l h,
    dropWhile_of_all_false jsIsSpace l.reverse (fun c hc => h c (List.mem_reverse.mp hc)),
    List.reverse_reverse]

theorem jsTrim_cons_space (c : Char) (l : Line) (h : jsIsSpace c = true) :
    jsTrim (c :: l) = jsTrim l := by
  unfold jsTrim
  rw [List.dropWhile_cons_of_pos (by simp [h])]

theorem jsTrim_head (c : Char) (t : Line) (hc : jsIsSpace c = false) :
    ∃ r, jsTrim (c :: t) = c :: r := by
  unfold jsTrim
  rw [List.dropWhile_cons_of_neg (by simp [hc]), List.reverse_cons, List.dropWhile_append]
  by_cases he : (t.reverse.dropWhile jsIsSpace).isEmpty
  · rw [if_pos he, List.dropWhile_cons_of_neg (by simp [hc])]
    exact ⟨[], by simp⟩
  · rw [if_neg he, List.reverse_append]
    exact ⟨(t.reverse.dropWhile jsIsSpace).reverse, by simp⟩

theorem jsTrim_head_ne_hashes (c : Char) (t : Line) (hc : jsIsSpace c = false)
    (hne : c ≠ '#') : jsTrim (c :: t) ≠ ['#', '#'] := by
  obtain ⟨r, hr⟩ := jsTrim_head c t hc
  rw [hr]
  intro h
  exact hne (List.cons.inj h).1

theorem jsParseInt_digits (ds : Line) (hne : ds ≠ []) (hd : ∀ c ∈ ds, c.isDigit = true) :
    jsParseInt ds = some ((decVal ds : Int)) := by
  have hdrop : ds.dropWhile jsIsSpace = ds :=
    dropWhile_of_all_false jsIsSpace ds (fun c hc => isDigit_not_space c (hd c hc))
  have htake : ds.takeWhile Char.isDigit = ds := takeWhile_of_all_true Char.isDigit ds hd
  cases ds with
  | nil => exact absurd rfl hne
  | cons c rest =>
    have hcd : c.isDigit = true := hd c (List.mem_cons_self c rest)
    have hc1 : c ≠ '-' := fun h => by rw [h] at hcd; exact absurd hcd (by decide)
    have hc2 : c ≠ '+' := fun h => by rw [h] at hcd; exact absurd hcd (by decide)
    have hbody : jsParseIntBody 1 (c :: rest) = some ((decVal (c :: rest) : Int)) := by
      have hds : (c :: rest).isEmpty = false := rfl
      cases rest with
      | nil =>
        simp only [jsParseIntBody, htake]
        simp
      | cons x r2 =>
        have hxd : x.isDigit = true := hd x (List.mem_cons_of_mem c (List.mem_cons_self x r2))
        have hx1 : ¬(x = 'x' ∨ x = 'X') := by
          rintro (rfl | rfl) <;> exact absurd hxd (by decide)
        by_cases hc0 : c = '0'
        · subst hc0
          simp only [jsParseIntBody]
          rw [if_neg (by simpa using hx1)]
          rw [htake]
          simp [List.isEmpty_cons]
        · simp only [jsParseIntBody]
          -- the `'0' :: x :: r2` pattern does not apply since c ≠ '0'
          split
          · rename_i heq
            exact absurd (List.cons.inj heq).1 hc0
          · rw [htake]
            simp [List.isEmpty_cons]
    simp only [jsParseInt, hdrop]
    split
    · rename_i heq
      exact absurd (List.cons.inj heq).1 hc1
    · rename_i heq
      exact absurd (List.cons.inj heq).1 hc2
    · exact hbody

/-! ## The `Optimizations:` branch (C4) -/

theorem splitChar_optimizations (ds : Line) (hsep : ∀ c ∈ ds, c ≠ ':') :
    splitChar ':' ("Optimizations: ".data ++ ds) = ["Optimizations".data, ' ' :: ds] := by
  have hshape : "Optimizations: ".data ++ ds = "Optimizations".data ++ ':' :: (' ' :: ds) := rfl
  rw [hshape, splitChar_append_sep ':' "Optimizations".data (' ' :: ds) (by decide)]
  rw [splitChar_no_sep ':' (' ' :: ds) ?h]
  case h =>
    intro c hc
    rcases List.mem_cons.mp hc with rfl | hmem
    · decide
    · exact hsep c hmem

theorem optimizationsValue_digits (ds : Line) (hne : ds ≠ [])
    (hd : ∀ c ∈ ds, c.isDigit = true) :
    optimizationsValue ("Optimizations: ".data ++ ds) =
      (if decVal ds = 0 then none else some ((decVal ds : Int))) := by
  have hsep : ∀ c ∈ ds, c ≠ ':' := by
    intro c hc h
    have := hd c hc
    rw [h] at this
    exact absurd this (by decide)
  have htrim : jsTrim (' ' :: ds) = ds := by
    rw [jsTrim_cons_space ' ' ds (by decide)]
    exact jsTrim_of_no_space ds (fun c hc => isDigit_not_space c (hd c hc))
  simp only [optimizationsValue, splitChar_optimizations ds hsep, List.get?_cons_succ,
    List.get?_cons_zero, htrim, jsParseInt_digits ds hne hd]
  by_cases h0 : decVal ds = 0
  · rw [if_pos h0]
    rw [h0]
    rfl
  · rw [if_neg h0]
    have h0i : ((decVal ds : Int)) ≠ 0 := by exact_mod_cast h0
    split
    · rename_i heq
      simp at heq
    · rename_i heq
      exact absurd (Option.some.inj heq) h0i
    · rename_i heq
      exact heq.symm

theorem optimizationsValue_nan (ds : Line) (hsep : ∀ c ∈ ds, c ≠ ':')
    (hnan : jsParseInt (jsTrim ds) = none) :
    optimizationsValue ("Optimizations: ".data ++ ds) = none := by
  simp only [optimizationsValue, splitChar_optimizations ds hsep, List.get?_cons_succ,
    List.get?_cons_zero, jsTrim_cons_space ' ' ds (by decide), hnan]

/-- The three `containsSub` side conditions of the `Optimizations:` branch,
for a line `Optimizations: <digits>`. -/
theorem optLine_markers (ds : Line) (hd : ∀ c ∈ ds, c.isDigit = true) :
    containsSub "Start verifying contract".data ("Optimizations: ".data ++ ds) = false ∧
    containsSub "Compiler version:".data ("Optimizations: ".data ++ ds) = false ∧
    containsSub "Optimizations:".data ("Optimizations: ".data ++ ds) = true := by
  have hv : 'v' ∉ "Optimizations: ".data ++ ds := by
    intro hmem
    rcases List.mem_append.mp hmem with h | h
    · exact absurd h (by decide)
    · exact absurd (hd 'v' h) (by decide)
  refine ⟨containsSub_eq_false _ _ 'v' (by decide) hv,
    containsSub_eq_false _ _ 'v' (by decide) hv, ?_⟩
  apply containsSub_of_startsWith
  rw [show "Optimizations: ".data ++ ds = "Optimizations:".data ++ (' ' :: ds) from rfl]
  exact startsWith_append "Optimizations:".data (' ' :: ds)

/-- C4 (amended): inside a section, a line `Optimizations: <trailing>` sets
the open record's optimizations field to the parsed trailing integer when
that integer is non-zero; when the trailing text is non-numeric (`parseInt`
gives `NaN`) — and also when the parsed integer is `0`, since `0` is falsy
in `parseInt(...) || null` — the field is set to present-but-absent (`null`),
and the scanner never raises an error (the embedded scanner is a total
function).  The original claim fails at `n = 0`
(`scanFile_optimizations_zero`). -/
theorem optimizations_branch_parsing :
    (∀ (all : List Line) (st : ScanState) (ds : Line),
      st.isInDeploymentSection = true → ds ≠ [] → (∀ c ∈ ds, c.isDigit = true) →
      (processLine all st ("Optimizations: ".data ++ ds)).currentContract.optimizations =
        some (if decVal ds = 0 then none else some ((decVal ds : Int)))) ∧
    (∀ (all : List Line) (st : ScanState) (ds : Line),
      st.isInDeploymentSection = true → (∀ c ∈ ds, c ≠ ':') →
      containsSub "Start verifying contract".data ("Optimizations: ".data ++ ds) = false →
      containsSub "Compiler version:".data ("Optimizations: ".data ++ ds) = false →
      jsParseInt (jsTrim ds) = none →
      (processLine all st ("Optimizations: ".data ++ ds)).currentContract.optimizations =
        some none) := by
  have htrimO : ∀ ds : Line, jsTrim ("Optimizations: ".data ++ ds) ≠ ['#', '#'] := by
    intro ds
    exact jsTrim_head_ne_hashes 'O' ("ptimizations: ".data ++ ds) (by decide) (by decide)
  constructor
  · intro all st ds hflag hne hd
    obtain ⟨hm1, hm2, hm3⟩ := optLine_markers ds hd
    rw [processLine_opt all st _ (htrimO ds) hflag hm1 hm2 hm3]
    simp only [optimizationsValue_digits ds hne hd]
  · intro all st ds hflag hsep hm1 hm2 hnan
    have hm3 : containsSub "Optimizations:".data ("Optimizations: ".data ++ ds) = true := by
      apply containsSub_of_startsWith
      rw [show "Optimizations: ".data ++ ds = "Optimizations:".data ++ (' ' :: ds) from rfl]
      exact startsWith_append "Optimizations:".data (' ' :: ds)
    rw [processLine_opt all st _ (htrimO ds) hflag hm1 hm2 hm3]
    simp only [optimizationsValue_nan ds hsep hnan]

/-- C4 witness: `Optimizations: 200` inside a section sets the field to 200,
and `Optimizations: runs` (non-numeric) sets it to `null`. -/
theorem optimizations_branch_parsing_witness :
    (processLine [] ⟨{}, [], true⟩ ("Optimizations: ".data ++ "200".data)).currentContract.optimizations =
      some (some (200 : Int)) ∧
    (processLine [] ⟨{}, [], true⟩ ("Optimizations: ".data ++ "runs".data)).currentContract.optimizations =
      some none := by
  constructor
  · have h := optimizations_branch_parsing.1 [] ⟨{}, [], true⟩ "200".data rfl (by decide) (by decide)
    rw [h, if_neg (by decide)]
    decide
  · exact optimizations_branch_parsing.2 [] ⟨{}, [], true⟩ "runs".data rfl (by decide)
      (by decide) (by decide) (by decide)

/-- C4 counterexample: a trailing integer of `0` yields an absent
optimizations value (`parseInt` returns the falsy `0`, which `|| null` maps
to `null`), not the value 0 that the claim requires. -/
theorem scanFile_optimizations_zero :
    (scanFile [['#', '#'], "Start verifying contract `0xAB` deployed on 1".data,
        "Optimizations: 0".data]).map PartialContract.optimizations = [some none] ∧
    (some none : Option (Option Int)) ≠ some (some 0) := by
  exact ⟨by decide, by decide⟩

/-! ## The run-identity key (C6) -/

theorem toNat_ofNat_small (n : Nat) (h : n < 55296) : (Char.ofNat n).toNat = n := by
  have hv : n.isValidChar := Or.inl h
  rw [Char.ofNat, dif_pos hv]
  simp [Char.ofNatAux, Char.toNat, UInt32.toNat]

theorem isSafeChar_jsToLower (c : Char) (h : keepChar c = true) :
    isSafeChar (jsToLower c) = true := by
  simp only [keepChar, Bool.or_eq_true, Bool.and_eq_true, decide_eq_true_eq] at h
  rcases h with ((⟨h1, h2⟩ | ⟨h1, h2⟩) | ⟨h1, h2⟩) | rfl
  · rw [jsToLower, if_neg (by simp; omega)]
    simp only [isSafeChar, Bool.or_eq_true, Bool.and_eq_true, decide_eq_true_eq]
    omega
  · rw [jsToLower, if_pos (by simp; omega)]
    have hr : (Char.ofNat (c.toNat + 32)).toNat = c.toNat + 32 :=
      toNat_ofNat_small (c.toNat + 32) (by omega)
    simp only [isSafeChar, Bool.or_eq_true, Bool.and_eq_true, decide_eq_true_eq, hr]
    omega
  · rw [jsToLower, if_neg (by simp; omega)]
    simp only [isSafeChar, Bool.or_eq_true, Bool.and_eq_true, decide_eq_true_eq]
    omega
  · decide

theorem sanitizeFileName_safe (name : Line) :
    ∀ c ∈ sanitizeFileName name, isSafeChar c = true := by
  intro c hc
  simp only [sanitizeFileName, List.mem_map] at hc
  obtain ⟨c₀, hc₀, rfl⟩ := hc
  exact isSafeChar_jsToLower c₀ (List.mem_filter.mp hc₀).2

/-- C6: the run-identity key derivation is a pure deterministic function of
the three identity inputs, and every character of its output is a lowercase
ASCII letter, a digit, or a hyphen — in particular there is never a slash,
an uppercase letter, or whitespace in the output. -/
theorem currentJobFileBasename_safe :
    (∀ (n n' : Nat) (w w' j j' : Line), n = n' → w = w' → j = j' →
      currentJobFileBasename n w j = currentJobFileBasename n' w' j') ∧
    (∀ (n : Nat) (w j : Line), ∀ c ∈ currentJobFileBasename n w j,
      isSafeChar c = true) := by
  refine ⟨?_, ?_⟩
  · rintro n n' w w' j j' rfl rfl rfl
    rfl
  · intro n w j c hc
    exact sanitizeFileName_safe _ c hc

/-- C6 witness: inputs containing whitespace, a slash and uppercase letters
yield the same key on repeated calls, and its first character is safe. -/
theorem currentJobFileBasename_safe_witness :
    currentJobFileBasename 42 "My Workflow".data "build/job".data =
      currentJobFileBasename 42 "My Workflow".data "build/job".data ∧
    isSafeChar '4' = true :=
  ⟨currentJobFileBasename_safe.1 42 42 "My Workflow".data "My Workflow".data
      "build/job".data "build/job".data rfl rfl rfl,
   currentJobFileBasename_safe.2 42 "My Workflow".data "build/job".data '4' (by decide)⟩

end VNet